import Mathlib

/-!
Verification of the ephemeral-event ring store in `atomiccircularbuffer2.go`
(`AtomicCircularBuffer2` and its helpers), shallowly embedded in Lean.

Go's `uint64` fields (`head`, `count`, `size`) are modelled as `Nat`: in every
execution considered here `head < size`, `count ≤ size + 1` and
`size = len(buffer)` fit far below `2^64`, so no modular wrap can occur.
Go byte-indexed string slicing (`s[:n]`) is modelled on the character list
`String.data`; all identifiers involved are ASCII hex strings, where the two
coincide.
-/

set_option maxHeartbeats 1000000

/-- Embedding of `nostr.Event` (the fields read by this package).
The `Inhabited` default is the Go zero value of `nostr.Event`. -/
structure Event where
  ID : String
  PubKey : String
  Kind : Int
  CreatedAt : Int
  Tags : List (List String)
  Content : String
deriving Repr, DecidableEq, Inhabited

/-- Embedding of `nostr.Filter` as read by `eventMatchesFilter` and
`QueryEvents`. The Go tag map `map[string][]string` is modelled as an
association list (only universally quantified facts about its entries are
stated, so iteration order is irrelevant). -/
structure NFilter where
  IDs : List String
  Authors : List String
  Kinds : List Int
  Tags : List (String × List String)
  Since : Option Int
  Until : Option Int
  Limit : Int
deriving Repr, DecidableEq, Inhabited

/-- Embedding of the `AtomicCircularBuffer2` struct. -/
structure AtomicCircularBuffer2 where
  buffer : List Event
  head : Nat
  count : Nat
  size : Nat
  MaxLimit : Int
deriving Repr, DecidableEq, Inhabited

/-- `NewAtomicCircularBuffer2`: `make([]nostr.Event, capacity)` faults (Go
run-time panic) for negative `capacity`, hence the `Option`; otherwise the
struct literal of the source is returned (`uint64(capacity) = capacity.toNat`
for non-negative capacity). -/
def newAtomicCircularBuffer2 (capacity : Int) : Option AtomicCircularBuffer2 :=
  if capacity < 0 then none
  else some
    { buffer := List.replicate capacity.toNat default
      head := 0
      count := 0
      size := capacity.toNat
      MaxLimit := capacity }

/-- `Init`. The Go guard `cb.buffer != nil && len(cb.buffer) == cb.MaxLimit`
is modelled as the length equation alone: past the `MaxLimit <= 0` check we
have `MaxLimit > 0`, so a buffer of length `MaxLimit` is necessarily non-nil. -/
def initBuffer (cb : AtomicCircularBuffer2) : Except String AtomicCircularBuffer2 :=
  if cb.MaxLimit ≤ 0 then Except.error "max limit must be greater than 0"
  else if (cb.buffer.length : Int) = cb.MaxLimit then
    Except.ok { cb with head := 0, count := 0 }
  else
    Except.ok { cb with
      buffer := List.replicate cb.MaxLimit.toNat default
      size := cb.MaxLimit.toNat
      head := 0
      count := 0 }

/-- Outcome of one `SaveEvent` call: normal return of the mutated receiver,
error return with the (unchanged) receiver, or a Go run-time fault
(out-of-range index / modulo by zero). -/
inductive SaveOutcome where
  | ok (cb : AtomicCircularBuffer2)
  | err (msg : String) (cb : AtomicCircularBuffer2)
  | fault
deriving Repr, DecidableEq

/-- The successful body of `SaveEvent`, as a state transformer:
`cb.buffer[head] = *evt`; `head = (head+1) % size`;
`count = AddUint64(count,1)` followed by the capping CAS (which, executed
sequentially, always succeeds). -/
def saveStep (cb : AtomicCircularBuffer2) (e : Event) : AtomicCircularBuffer2 :=
  { cb with
    buffer := cb.buffer.set cb.head e
    head := (cb.head + 1) % cb.size
    count := if cb.count + 1 > cb.size then cb.size else cb.count + 1 }

/-- `SaveEvent` (sequential semantics). A `none` argument is the Go `nil`
pointer. The guard is the condition under which the Go body does not panic:
`cb.buffer[head]` requires `head < len(buffer)` and `(head+1) % cb.size`
requires `size ≠ 0`. -/
def saveEvent (cb : AtomicCircularBuffer2) (evt : Option Event) : SaveOutcome :=
  match evt with
  | none => SaveOutcome.err "event cannot be nil" cb
  | some e =>
    if cb.head < cb.buffer.length ∧ cb.size ≠ 0 then SaveOutcome.ok (saveStep cb e)
    else SaveOutcome.fault

/-- Sequence of successful `SaveEvent` calls (oldest first). -/
def putAll (cb : AtomicCircularBuffer2) (es : List Event) : AtomicCircularBuffer2 :=
  es.foldl saveStep cb

/-- One allowed value against the record identifier / author key:
`id == evt.ID || (len(id) < 64 && len(evt.ID) >= len(id) && evt.ID[:len(id)] == id)`. -/
def hexMatches (v target : String) : Bool :=
  v == target ||
    (decide (v.length < 64) && decide (target.length ≥ v.length) &&
      (target.data.take v.length == v.data))

/-- The `filter.IDs` block of `eventMatchesFilter` (`len > 0` guard plus the
`found` loop; equivalently: empty, or some allowed value matches). -/
def idsClause (evt : Event) (f : NFilter) : Bool :=
  f.IDs.isEmpty || f.IDs.any (fun v => hexMatches v evt.ID)

/-- The `filter.Authors` block of `eventMatchesFilter`. -/
def authorsClause (evt : Event) (f : NFilter) : Bool :=
  f.Authors.isEmpty || f.Authors.any (fun v => hexMatches v evt.PubKey)

/-- The `filter.Kinds` block of `eventMatchesFilter`
(`slices.Contains(filter.Kinds, evt.Kind)`). -/
def kindsClause (evt : Event) (f : NFilter) : Bool :=
  f.Kinds.isEmpty || f.Kinds.contains evt.Kind

/-- The inner loop over `evt.Tags` for one filter entry: some tag has
`len(tag) > 1 && tag[0] == tagName && slices.Contains(values, tag[1])`. -/
def tagMatch (tags : List (List String)) (tagName : String) (values : List String) : Bool :=
  tags.any (fun tag =>
    decide (tag.length > 1) && (tag.headD "" == tagName) && values.contains (tag.getD 1 ""))

/-- The `filter.Tags` block of `eventMatchesFilter`: every entry with a
non-empty value set must be matched by some tag of the record
(entries with `len(values) == 0` are skipped by `continue`). -/
def tagsClause (evt : Event) (f : NFilter) : Bool :=
  f.Tags.all (fun p => p.2.isEmpty || tagMatch evt.Tags p.1 p.2)

/-- The `filter.Since` block: fail iff a bound is present and
`evt.CreatedAt < *filter.Since`. -/
def sinceClause (evt : Event) (f : NFilter) : Bool :=
  match f.Since with
  | none => true
  | some s => decide (¬ evt.CreatedAt < s)

/-- The `filter.Until` block: fail iff a bound is present and
`evt.CreatedAt > *filter.Until`. -/
def untilClause (evt : Event) (f : NFilter) : Bool :=
  match f.Until with
  | none => true
  | some u => decide (¬ evt.CreatedAt > u)

/-- `eventMatchesFilter`: the conjunction of the six early-return blocks of
the source, in source order. -/
def eventMatchesFilter (evt : Event) (f : NFilter) : Bool :=
  idsClause evt f && authorsClause evt f && kindsClause evt f &&
    tagsClause evt f && sinceClause evt f && untilClause evt f

/-- Tail position computed by `QueryEvents`: `head` when the buffer is full
(`count >= cb.size`), else `0`. -/
def tailPos (cb : AtomicCircularBuffer2) : Nat :=
  if cb.count ≥ cb.size then cb.head else 0

/-- The slot read in iteration `i` of the `QueryEvents` scan:
`cb.buffer[(tail + i) % cb.size]`. -/
def slotAt (cb : AtomicCircularBuffer2) (i : Nat) : Event :=
  cb.buffer.getD ((tailPos cb + i) % cb.size) default

/-- The sequence of slots the `QueryEvents` loop visits, oldest first
(iterations `i = 0 .. count-1`). -/
def snapshotList (cb : AtomicCircularBuffer2) : List Event :=
  (List.range cb.count).map (fun i => slotAt cb i)

/-- `limit := int(count); if filter.Limit > 0 && filter.Limit < limit
{ limit = filter.Limit }`. -/
def effectiveLimit (fLimit : Int) (count : Nat) : Nat :=
  if 0 < fLimit ∧ fLimit < (count : Int) then fLimit.toNat else count

/-- The `QueryEvents` scan loop over the visited slots: append each match,
and break as soon as `len(result) >= limit` after an append. -/
def collectLoop (f : NFilter) (limit : Nat) : List Event → List Event → List Event
  | acc, [] => acc
  | acc, e :: rest =>
    if eventMatchesFilter e f then
      let acc2 := acc ++ [e]
      if limit ≤ acc2.length then acc2
      else collectLoop f limit acc2 rest
    else collectLoop f limit acc rest

/-- `QueryEvents` (sequential semantics). `canceled` is whether `ctx.Done()`
is ready at the final `select`; note the `count == 0` early return precedes
that check. -/
def queryEvents (canceled : Bool) (cb : AtomicCircularBuffer2) (f : NFilter) :
    Except String (List Event) :=
  if cb.count = 0 then Except.ok []
  else
    let limit := effectiveLimit f.Limit cb.count
    let result := collectLoop f limit [] (snapshotList cb)
    if canceled then Except.error "context canceled" else Except.ok result

/-- `QueryEvents` as a state-threading operation: the method body performs no
store to any receiver field (it only loads `head` and `count` and reads
buffer slots), so the receiver is returned unchanged. -/
def queryEventsSt (canceled : Bool) (cb : AtomicCircularBuffer2) (f : NFilter) :
    Except String (List Event) × AtomicCircularBuffer2 :=
  (queryEvents canceled cb f, cb)

/-- The filter whose clauses are all absent (Go zero value of `nostr.Filter`):
an unfiltered query. -/
def emptyFilter : NFilter :=
  { IDs := [], Authors := [], Kinds := [], Tags := [], Since := none, Until := none, Limit := 0 }

/-- States reachable through the constructor and successful saves: the backing
slice has length `size` and the write cursor is in range. -/
def WF (cb : AtomicCircularBuffer2) : Prop :=
  cb.buffer.length = cb.size ∧ cb.head < cb.size

theorem wf_saveStep {cb : AtomicCircularBuffer2} (h : WF cb) (e : Event) :
    WF (saveStep cb e) := by
  obtain ⟨h1, h2⟩ := h
  exact ⟨by simp [saveStep, h1], Nat.mod_lt _ (by omega)⟩

theorem saveEvent_some_eq {cb : AtomicCircularBuffer2} (h : WF cb) (e : Event) :
    saveEvent cb (some e) = SaveOutcome.ok (saveStep cb e) := by
  obtain ⟨h1, h2⟩ := h
  exact if_pos ⟨by omega, by omega⟩

/-- The scan loop collects, in scan order, the matches of the remaining
candidates, truncated to the room left before the limit is reached. -/
theorem collectLoop_eq_take (f : NFilter) (limit : Nat) :
    ∀ (xs acc : List Event), acc.length < limit →
      collectLoop f limit acc xs =
        acc ++ (xs.filter (fun e => eventMatchesFilter e f)).take (limit - acc.length) := by
  intro xs
  induction xs with
  | nil => intro acc h; simp [collectLoop]
  | cons e rest ih =>
    intro acc h
    by_cases hm : eventMatchesFilter e f = true
    · by_cases hl : limit ≤ acc.length + 1
      · have hlim : limit - acc.length = 1 := by omega
        rw [collectLoop, if_pos hm, if_pos (by simp; omega), List.filter_cons, if_pos hm,
          hlim, List.take_succ_cons, List.take_zero]
      · have h1 : (acc ++ [e]).length < limit := by simp; omega
        rw [collectLoop, if_pos hm, if_neg (by simp; omega), ih (acc ++ [e]) h1,
          List.filter_cons, if_pos hm]
        have h2 : limit - acc.length = (limit - (acc ++ [e]).length) + 1 := by simp; omega
        rw [h2, List.take_succ_cons, List.append_assoc]
        rfl
    · rw [collectLoop, if_neg hm, ih acc h, List.filter_cons, if_neg hm]

/-- Reading a list at offsets `k, k+1, …, k+n-1` with `k + n = l.length`
yields `l.drop k`. -/
theorem range_map_getD_eq_drop {α : Type} (l : List α) (d : α) :
    ∀ (n k : Nat), k + n = l.length →
      (List.range n).map (fun i => l.getD (k + i) d) = l.drop k := by
  intro n
  induction n with
  | zero =>
    intro k h
    simp only [List.range_zero, List.map_nil]
    exact (List.drop_eq_nil_iff.mpr (by omega)).symm
  | succ m ih =>
    intro m10 h
    have h1 : m10 < l.length := by omega
    rw [List.range_succ_eq_map, List.map_cons, List.map_map,
      List.drop_eq_getElem_cons h1]
    congr 1
    · rw [Nat.add_zero]
      exact List.getD_eq_getElem _ _ h1
    · have h2 : (m10 + 1) + m = l.length := by omega
      rw [← ih (m10 + 1) h2]
      apply List.map_congr_left
      intro i _
      show l.getD (m10 + (i + 1)) d = l.getD ((m10 + 1) + i) d
      congr 1
      omega

/-- Invariant characterizing the store after the successful insertion of the
records in `es` (oldest first) into a fresh store of capacity `N`. -/
def RunInv (N : Nat) (es : List Event) (cb : AtomicCircularBuffer2) : Prop :=
  cb.size = N ∧ cb.buffer.length = N ∧ cb.head = es.length % N ∧
    cb.count = min es.length N ∧
    ∀ i, i < cb.count → slotAt cb i = es.getD (es.length - cb.count + i) default

/-- One successful `SaveEvent` preserves the run invariant: the new record
lands on the write cursor, which either extends the occupied run or evicts
exactly the oldest record. -/
theorem runInv_saveStep {N : Nat} (hN : 0 < N) {es : List Event}
    {cb : AtomicCircularBuffer2} (e : Event) (h : RunInv N es cb) :
    RunInv N (es ++ [e]) (saveStep cb e) := by
  obtain ⟨hsz, hlen, hhd, hct, hslot⟩ := h
  have hsz' : (saveStep cb e).size = N := hsz
  have hlen' : (saveStep cb e).buffer.length = N := by
    show (cb.buffer.set cb.head e).length = N
    simp [hlen]
  have hlapp : (es ++ [e]).length = es.length + 1 := by simp
  by_cases hc : es.length < N
  · have hhd0 : cb.head = es.length := by rw [hhd, Nat.mod_eq_of_lt hc]
    have hct0 : cb.count = es.length := by rw [hct]; omega
    have hcnt' : (saveStep cb e).count = es.length + 1 := by
      show (if cb.count + 1 > cb.size then cb.size else cb.count + 1) = es.length + 1
      rw [hct0, hsz, if_neg (by omega)]
    have hhd' : (saveStep cb e).head = (es.length + 1) % N := by
      show (cb.head + 1) % cb.size = (es.length + 1) % N
      rw [hhd0, hsz]
    have htail' : tailPos (saveStep cb e) = 0 := by
      unfold tailPos
      rw [hcnt', hsz', hhd']
      by_cases hfull : N ≤ es.length + 1
      · have hNe : es.length + 1 = N := by omega
        rw [if_pos hfull, hNe, Nat.mod_self]
      · rw [if_neg hfull]
    refine ⟨hsz', hlen', by rw [hhd', hlapp], by rw [hcnt', hlapp]; omega, ?_⟩
    intro i hi
    rw [hcnt'] at hi
    unfold slotAt
    rw [htail', hsz', hcnt', hlapp, Nat.zero_add, Nat.mod_eq_of_lt (by omega)]
    have hidx : es.length + 1 - (es.length + 1) + i = i := by omega
    rw [hidx]
    show (cb.buffer.set cb.head e).getD i default = (es ++ [e]).getD i default
    rw [hhd0]
    simp only [List.getD_eq_getElem?_getD]
    by_cases hil : i < es.length
    · rw [List.getElem?_set_ne (by omega), List.getElem?_append_left (by omega)]
      have hold := hslot i (by omega)
      unfold slotAt tailPos at hold
      rw [if_neg (by omega), Nat.zero_add, hsz, Nat.mod_eq_of_lt (by omega), hct0] at hold
      rw [Nat.sub_self, Nat.zero_add] at hold
      simp only [List.getD_eq_getElem?_getD] at hold
      exact hold
    · have hie : i = es.length := by omega
      rw [hie, List.getElem?_set_self (by omega), List.getElem?_append_right (by omega)]
      simp
  · have hge : N ≤ es.length := by omega
    have hct0 : cb.count = N := by rw [hct]; omega
    have hcnt' : (saveStep cb e).count = N := by
      show (if cb.count + 1 > cb.size then cb.size else cb.count + 1) = N
      rw [hct0, hsz, if_pos (by omega)]
    have hhd' : (saveStep cb e).head = (es.length + 1) % N := by
      show (cb.head + 1) % cb.size = (es.length + 1) % N
      rw [hhd, hsz, Nat.mod_add_mod]
    have htail' : tailPos (saveStep cb e) = (es.length + 1) % N := by
      unfold tailPos
      rw [hcnt', hsz', hhd', if_pos (le_refl N)]
    refine ⟨hsz', hlen', by rw [hhd', hlapp], by rw [hcnt', hlapp]; omega, ?_⟩
    intro i hi
    rw [hcnt'] at hi
    unfold slotAt
    rw [htail', hsz', hcnt', hlapp]
    have hpos : ((es.length + 1) % N + i) % N = (es.length % N + (i + 1)) % N := by
      rw [Nat.mod_add_mod, Nat.mod_add_mod]
      congr 1
      omega
    rw [hpos]
    show (cb.buffer.set cb.head e).getD ((es.length % N + (i + 1)) % N) default
      = (es ++ [e]).getD (es.length + 1 - N + i) default
    rw [hhd]
    have ha : es.length % N < N := Nat.mod_lt _ (by omega)
    simp only [List.getD_eq_getElem?_getD]
    by_cases hlast : i + 1 = N
    · have hp2 : (es.length % N + (i + 1)) % N = es.length % N := by
        rw [hlast, Nat.add_mod_right]
        exact Nat.mod_eq_of_lt ha
      rw [hp2, List.getElem?_set_self (by omega)]
      have hidx : es.length + 1 - N + i = es.length := by omega
      rw [hidx, List.getElem?_append_right (by omega)]
      simp
    · have hlt : i + 1 < N := by omega
      have hne : (es.length % N + (i + 1)) % N ≠ es.length % N := by
        by_cases hsum : es.length % N + (i + 1) < N
        · rw [Nat.mod_eq_of_lt hsum]; omega
        · rw [Nat.mod_eq_sub_mod (by omega), Nat.mod_eq_of_lt (by omega)]
          omega
      rw [List.getElem?_set_ne (Ne.symm hne)]
      have hold := hslot (i + 1) (by omega)
      unfold slotAt tailPos at hold
      rw [if_pos (by omega), hsz, hct0, hhd] at hold
      simp only [List.getD_eq_getElem?_getD] at hold
      rw [hold]
      have hidx2 : es.length + 1 - N + i < es.length := by omega
      rw [List.getElem?_append_left hidx2]
      have hidx3 : es.length - N + (i + 1) = es.length + 1 - N + i := by omega
      rw [hidx3]

/-- Starting state of the run invariant. -/
theorem runInv_nil {N : Nat} {cb : AtomicCircularBuffer2}
    (h1 : cb.size = N) (h2 : cb.buffer.length = N) (h3 : cb.head = 0)
    (h4 : cb.count = 0) : RunInv N [] cb := by
  refine ⟨h1, h2, by simp [h3], by simp [h4], ?_⟩
  intro i hi
  rw [h4] at hi
  omega

/-- The run invariant after any sequence of successful saves. -/
theorem runInv_putAll {N : Nat} (hN : 0 < N) :
    ∀ (es pre : List Event) (cb : AtomicCircularBuffer2),
      RunInv N pre cb → RunInv N (pre ++ es) (putAll cb es) := by
  intro es
  induction es with
  | nil =>
    intro pre cb h
    simpa [putAll] using h
  | cons e rest ih =>
    intro pre cb h
    have h2 := ih (pre ++ [e]) (saveStep cb e) (runInv_saveStep hN e h)
    simpa [putAll, List.append_assoc] using h2

/-- The slots visited by the query scan are the trailing `count` inserted
records, oldest first. -/
theorem snapshotList_eq_drop {N : Nat} {es : List Event}
    {cb : AtomicCircularBuffer2} (h : RunInv N es cb) :
    snapshotList cb = es.drop (es.length - cb.count) := by
  obtain ⟨hsz, hlen, hhd, hct, hslot⟩ := h
  unfold snapshotList
  have hcle : cb.count ≤ es.length := by rw [hct]; omega
  rw [← range_map_getD_eq_drop es default cb.count (es.length - cb.count) (by omega)]
  apply List.map_congr_left
  intro i hi
  rw [List.mem_range] at hi
  exact hslot i hi

theorem snapshotList_length (cb : AtomicCircularBuffer2) :
    (snapshotList cb).length = cb.count := by
  simp [snapshotList]

/-- A quiescent query returns the matches of the visited slots, in scan
order, truncated at the effective limit. -/
theorem queryEvents_characterization (cb : AtomicCircularBuffer2) (f : NFilter) :
    queryEvents false cb f =
      Except.ok (((snapshotList cb).filter (fun e => eventMatchesFilter e f)).take
        (effectiveLimit f.Limit cb.count)) := by
  unfold queryEvents
  by_cases h0 : cb.count = 0
  · rw [if_pos h0]
    have hsnap : snapshotList cb = [] := by
      unfold snapshotList
      rw [h0]
      simp
    rw [hsnap]
    simp
  · rw [if_neg h0]
    have hlim : 0 < effectiveLimit f.Limit cb.count := by
      unfold effectiveLimit
      split
      · omega
      · omega
    simp only []
    rw [show (if (false = true) then Except.error "context canceled" else
        Except.ok (collectLoop f (effectiveLimit f.Limit cb.count) [] (snapshotList cb))) =
        Except.ok (collectLoop f (effectiveLimit f.Limit cb.count) [] (snapshotList cb)) from
      if_neg (by simp)]
    rw [collectLoop_eq_take f _ (snapshotList cb) [] (by simpa using hlim)]
    simp

theorem eventMatchesFilter_emptyFilter (e : Event) :
    eventMatchesFilter e emptyFilter = true := rfl

/-- A fresh store of capacity `n`, as built by `NewAtomicCircularBuffer2`. -/
def freshBuf (n : Nat) : AtomicCircularBuffer2 :=
  { buffer := List.replicate n default
    head := 0
    count := 0
    size := n
    MaxLimit := (n : Int) }

theorem newAtomicCircularBuffer2_natCast (n : Nat) :
    newAtomicCircularBuffer2 (n : Int) = some (freshBuf n) := by
  unfold newAtomicCircularBuffer2 freshBuf
  rw [if_neg (by omega)]
  simp

theorem runInv_fresh (n : Nat) : RunInv n [] (freshBuf n) :=
  runInv_nil rfl (by simp [freshBuf]) rfl rfl

/-- Scenario record `i` of the capacity-5 test: identifier `id-i`, kind `i`. -/
def scenarioEvent (id : String) (kind : Int) : Event :=
  { ID := id, PubKey := "", Kind := kind, CreatedAt := 0, Tags := [], Content := "" }

def scenarioEvents : List Event :=
  [scenarioEvent "id-0" 0, scenarioEvent "id-1" 1, scenarioEvent "id-2" 2,
    scenarioEvent "id-3" 3, scenarioEvent "id-4" 4, scenarioEvent "id-5" 5,
    scenarioEvent "id-6" 6, scenarioEvent "id-7" 7]

def scenarioKindFilter : NFilter :=
  { IDs := [], Authors := [], Kinds := [0, 1, 2, 3, 4, 5, 6, 7], Tags := [],
    Since := none, Until := none, Limit := 0 }

/-- C1: on a store of capacity `N > 0`, after `N + k` sequential `Put` calls an
unfiltered query returns exactly the last `min(N+k, N)` inserted records,
oldest first; concretely, with capacity 5 and records `id-0`..`id-7` of kinds
`0`..`7`, a query with kind filter `{0..7}` returns exactly
`id-3, id-4, id-5, id-6, id-7` in that order. -/
theorem C1_capacity_invariant :
    (∀ (N k : Nat) (cb0 : AtomicCircularBuffer2) (es : List Event),
      0 < N → newAtomicCircularBuffer2 (N : Int) = some cb0 → es.length = N + k →
      queryEvents false (putAll cb0 es) emptyFilter = Except.ok (es.drop k) ∧
        (es.drop k).length = min (N + k) N) ∧
    (newAtomicCircularBuffer2 5 = some (freshBuf 5) ∧
      queryEvents false (putAll (freshBuf 5) scenarioEvents) scenarioKindFilter =
        Except.ok [scenarioEvent "id-3" 3, scenarioEvent "id-4" 4,
          scenarioEvent "id-5" 5, scenarioEvent "id-6" 6, scenarioEvent "id-7" 7]) := by
  constructor
  · intro N k cb0 es hN hnew hlen
    rw [newAtomicCircularBuffer2_natCast] at hnew
    have hcb0 : cb0 = freshBuf N := (Option.some.inj hnew).symm
    subst hcb0
    have hinv : RunInv N es (putAll (freshBuf N) es) := by
      have h := runInv_putAll hN es [] (freshBuf N) (runInv_fresh N)
      simpa using h
    have hct : (putAll (freshBuf N) es).count = N := by
      rw [hinv.2.2.2.1, hlen]
      omega
    have hsnap : snapshotList (putAll (freshBuf N) es) = es.drop k := by
      rw [snapshotList_eq_drop hinv, hct, hlen]
      congr 1
      omega
    have hdroplen : (es.drop k).length = N := by
      rw [List.length_drop, hlen]
      omega
    refine ⟨?_, by rw [hdroplen]; omega⟩
    rw [queryEvents_characterization, hsnap, hct]
    have hall : (fun e => eventMatchesFilter e emptyFilter) = fun _ : Event => true := by
      funext e
      rfl
    rw [hall, List.filter_true]
    have heff : effectiveLimit emptyFilter.Limit N = N := by
      have h0 : emptyFilter.Limit = 0 := rfl
      unfold effectiveLimit
      rw [h0, if_neg (by omega)]
    rw [heff, List.take_of_length_le (by rw [hdroplen])]
  · exact ⟨rfl, rfl⟩

theorem C1_capacity_invariant_witness :
    queryEvents false (putAll (freshBuf 3) [scenarioEvent "a" 1, scenarioEvent "b" 2,
        scenarioEvent "c" 3, scenarioEvent "d" 4]) emptyFilter =
      Except.ok [scenarioEvent "b" 2, scenarioEvent "c" 3, scenarioEvent "d" 4] := by
  have h := (C1_capacity_invariant.1 3 1 (freshBuf 3)
    [scenarioEvent "a" 1, scenarioEvent "b" 2, scenarioEvent "c" 3, scenarioEvent "d" 4]
    (by decide) (newAtomicCircularBuffer2_natCast 3) (by decide)).1
  exact h

/-- C5: a quiescent single-filter query takes one snapshot, computes the
effective limit (the filter limit when positive and below the snapshot
length, else the snapshot length), scans oldest to newest appending matches
in scan order, and stops at the effective limit; with `M ≥ L` matches and
filter limit `L > 0` it returns exactly the `L` oldest matches. -/
theorem C5_limit_enforcement :
    (∀ (cb : AtomicCircularBuffer2) (f : NFilter),
      queryEvents false cb f =
        Except.ok (((snapshotList cb).filter (fun e => eventMatchesFilter e f)).take
          (effectiveLimit f.Limit cb.count))) ∧
    (∀ (cb : AtomicCircularBuffer2) (f : NFilter) (L : Nat),
      f.Limit = (L : Int) → 0 < L →
      L ≤ ((snapshotList cb).filter (fun e => eventMatchesFilter e f)).length →
      queryEvents false cb f =
        Except.ok (((snapshotList cb).filter (fun e => eventMatchesFilter e f)).take L) ∧
      (((snapshotList cb).filter (fun e => eventMatchesFilter e f)).take L).length = L) := by
  refine ⟨queryEvents_characterization, ?_⟩
  intro cb f L hL hLpos hM
  have hMle : ((snapshotList cb).filter (fun e => eventMatchesFilter e f)).length ≤ cb.count := by
    calc ((snapshotList cb).filter (fun e => eventMatchesFilter e f)).length
        ≤ (snapshotList cb).length := List.length_filter_le _ _
      _ = cb.count := snapshotList_length cb
  have heff : effectiveLimit f.Limit cb.count = L := by
    unfold effectiveLimit
    rw [hL]
    by_cases hcase : L < cb.count
    · rw [if_pos ⟨by omega, by omega⟩]
      omega
    · rw [if_neg (by omega)]
      omega
  refine ⟨by rw [queryEvents_characterization, heff], ?_⟩
  rw [List.length_take]
  omega

theorem C5_limit_enforcement_witness :
    queryEvents false (putAll (freshBuf 3) [scenarioEvent "a" 1, scenarioEvent "b" 2,
        scenarioEvent "c" 3]) { emptyFilter with Limit := 2 } =
      Except.ok [scenarioEvent "a" 1, scenarioEvent "b" 2] := by
  have h := (C5_limit_enforcement.2
    (putAll (freshBuf 3) [scenarioEvent "a" 1, scenarioEvent "b" 2, scenarioEvent "c" 3])
    { emptyFilter with Limit := 2 } 2 rfl (by decide) (by decide)).1
  exact h

/-- C4: when the cancellation signal is observed before a result is returned
(the check sits after result assembly, on every path with a non-empty
snapshot), the query reports cancellation and delivers no result — the
assembled list is discarded. -/
theorem C4_cancellation (cb : AtomicCircularBuffer2) (f : NFilter)
    (h : cb.count ≠ 0) :
    queryEvents true cb f = Except.error "context canceled" := by
  unfold queryEvents
  rw [if_neg h]
  rfl

theorem C4_cancellation_witness :
    queryEvents true (putAll (freshBuf 2) [scenarioEvent "a" 1]) emptyFilter =
      Except.error "context canceled" :=
  C4_cancellation (putAll (freshBuf 2) [scenarioEvent "a" 1]) emptyFilter (by decide)

/-- C10: a query on a store with occupancy zero returns an empty success
result before the cancellation signal is ever consulted, even when
cancellation has already been observed. -/
theorem C10_empty_store_ignores_cancellation (canceled : Bool)
    (cb : AtomicCircularBuffer2) (f : NFilter) (h : cb.count = 0) :
    queryEvents canceled cb f = Except.ok [] := by
  unfold queryEvents
  rw [if_pos h]

theorem C10_empty_store_ignores_cancellation_witness :
    queryEvents true (freshBuf 5) scenarioKindFilter = Except.ok [] :=
  C10_empty_store_ignores_cancellation true (freshBuf 5) scenarioKindFilter rfl

/-- C8: on any well-formed store, `Put` of a nil record fails with the
`event cannot be nil` error and changes nothing, and `Put` of any record
succeeds — there is no other failure mode. -/
theorem C8_put_failure_modes (cb : AtomicCircularBuffer2) (h : WF cb) :
    saveEvent cb none = SaveOutcome.err "event cannot be nil" cb ∧
      ∀ e : Event, saveEvent cb (some e) = SaveOutcome.ok (saveStep cb e) :=
  ⟨rfl, fun e => saveEvent_some_eq h e⟩

theorem C8_put_failure_modes_witness :
    saveEvent (freshBuf 2) none = SaveOutcome.err "event cannot be nil" (freshBuf 2) ∧
      saveEvent (freshBuf 2) (some (scenarioEvent "a" 1)) =
        SaveOutcome.ok (saveStep (freshBuf 2) (scenarioEvent "a" 1)) := by
  have h := C8_put_failure_modes (freshBuf 2) ⟨by decide, by decide⟩
  exact ⟨h.1, h.2 (scenarioEvent "a" 1)⟩

/-- C9: two queries run back to back with no intervening write return the
same ordered result, and the store is unchanged — the query is a
deterministic, state-preserving read. -/
theorem C9_query_idempotent (canceled : Bool) (cb : AtomicCircularBuffer2)
    (f : NFilter) :
    (queryEventsSt canceled (queryEventsSt canceled cb f).2 f).1 =
        (queryEventsSt canceled cb f).1 ∧
      (queryEventsSt canceled (queryEventsSt canceled cb f).2 f).2 = cb :=
  ⟨rfl, rfl⟩

/-- One allowed value matches a stored hex string exactly when it equals it,
or is shorter than 64 characters and is a prefix of it. -/
theorem hexMatches_iff (v s : String) :
    hexMatches v s = true ↔ v = s ∨ (v.length < 64 ∧ v.data <+: s.data) := by
  unfold hexMatches
  rw [Bool.or_eq_true, Bool.and_eq_true, Bool.and_eq_true, beq_iff_eq,
    decide_eq_true_iff, decide_eq_true_iff, beq_iff_eq]
  constructor
  · rintro (h | ⟨⟨h1, _⟩, h3⟩)
    · exact Or.inl h
    · refine Or.inr ⟨h1, ?_⟩
      rw [List.prefix_iff_eq_take]
      exact h3.symm
  · rintro (h | ⟨h1, h2⟩)
    · exact Or.inl h
    · refine Or.inr ⟨⟨h1, h2.length_le⟩, ?_⟩
      rw [List.prefix_iff_eq_take] at h2
      exact h2.symm

/-- C6: the identifier clause holds iff some allowed value equals the record
identifier or is a sub-64-character prefix of it; the same rule governs the
author clause; the 6-character value `abcdef` matches every 64-character
identifier starting with `abcdef` and none starting with `abcdee`. -/
theorem C6_prefix_matching :
    (∀ (evt : Event) (f : NFilter), f.IDs ≠ [] →
      (idsClause evt f = true ↔
        ∃ v ∈ f.IDs, v = evt.ID ∨ (v.length < 64 ∧ v.data <+: evt.ID.data))) ∧
    (∀ (evt : Event) (f : NFilter), f.Authors ≠ [] →
      (authorsClause evt f = true ↔
        ∃ v ∈ f.Authors, v = evt.PubKey ∨ (v.length < 64 ∧ v.data <+: evt.PubKey.data))) ∧
    (∀ id64 : String, id64.length = 64 → "abcdef".data <+: id64.data →
      hexMatches "abcdef" id64 = true) ∧
    (∀ id64 : String, id64.length = 64 → "abcdee".data <+: id64.data →
      hexMatches "abcdef" id64 = false) := by
  refine ⟨?_, ?_, ?_, ?_⟩
  · intro evt f hne
    unfold idsClause
    rw [Bool.or_eq_true, List.any_eq_true]
    constructor
    · rintro (h | ⟨v, hv, hm⟩)
      · exact absurd (List.isEmpty_iff.mp h) hne
      · exact ⟨v, hv, (hexMatches_iff v evt.ID).mp hm⟩
    · rintro ⟨v, hv, hm⟩
      exact Or.inr ⟨v, hv, (hexMatches_iff v evt.ID).mpr hm⟩
  · intro evt f hne
    unfold authorsClause
    rw [Bool.or_eq_true, List.any_eq_true]
    constructor
    · rintro (h | ⟨v, hv, hm⟩)
      · exact absurd (List.isEmpty_iff.mp h) hne
      · exact ⟨v, hv, (hexMatches_iff v evt.PubKey).mp hm⟩
    · rintro ⟨v, hv, hm⟩
      exact Or.inr ⟨v, hv, (hexMatches_iff v evt.PubKey).mpr hm⟩
  · intro id64 _ hpre
    exact (hexMatches_iff _ _).mpr (Or.inr ⟨by decide, hpre⟩)
  · intro id64 hlen hpre
    cases hx : hexMatches "abcdef" id64
    · rfl
    · exfalso
      rcases (hexMatches_iff _ _).mp hx with h | ⟨_, hpre2⟩
      · rw [← h] at hlen
        exact absurd hlen (by decide)
      · have h6 : ("abcdee".data : List Char) <+: "abcdef".data :=
          List.prefix_of_prefix_length_le hpre hpre2 (by decide)
        exact absurd (h6.eq_of_length (by decide)) (by decide)

theorem C6_prefix_matching_witness :
    (idsClause (scenarioEvent "id-3" 3) { emptyFilter with IDs := ["id-"] } = true ↔
      ∃ v ∈ ["id-"], v = "id-3" ∨ (v.length < 64 ∧ v.data <+: "id-3".data)) ∧
    hexMatches "abcdef"
      "abcdef0000000000000000000000000000000000000000000000000000000000" = true ∧
    hexMatches "abcdef"
      "abcdee0000000000000000000000000000000000000000000000000000000000" = false :=
  ⟨C6_prefix_matching.1 (scenarioEvent "id-3" 3) { emptyFilter with IDs := ["id-"] }
      (by decide),
    C6_prefix_matching.2.2.1
      "abcdef0000000000000000000000000000000000000000000000000000000000"
      (by decide) (by decide),
    C6_prefix_matching.2.2.2
      "abcdee0000000000000000000000000000000000000000000000000000000000"
      (by decide) (by decide)⟩

/-- C7: the tag clauses hold iff, for every tag name in the filter's mapping
with a non-empty allowed-value set, some tag of the record has length above
one, first element equal to that name, and second element in the set. -/
theorem C7_tag_clauses (evt : Event) (f : NFilter) :
    tagsClause evt f = true ↔
      ∀ p ∈ f.Tags, p.2 ≠ [] →
        ∃ tag ∈ evt.Tags, 1 < tag.length ∧ tag.headD "" = p.1 ∧ tag.getD 1 "" ∈ p.2 := by
  unfold tagsClause tagMatch
  rw [List.all_eq_true]
  constructor
  · intro h p hp hne
    have h2 := h p hp
    rw [Bool.or_eq_true] at h2
    rcases h2 with h2 | h2
    · exact absurd (List.isEmpty_iff.mp h2) hne
    · rw [List.any_eq_true] at h2
      obtain ⟨tag, htag, hcond⟩ := h2
      rw [Bool.and_eq_true, Bool.and_eq_true, decide_eq_true_iff, beq_iff_eq] at hcond
      exact ⟨tag, htag, hcond.1.1, hcond.1.2, List.elem_iff.mp hcond.2⟩
  · intro h p hp
    rw [Bool.or_eq_true]
    by_cases hne : p.2 = []
    · exact Or.inl (by simp [hne])
    · obtain ⟨tag, htag, h1, h2, h3⟩ := h p hp hne
      refine Or.inr ?_
      rw [List.any_eq_true]
      refine ⟨tag, htag, ?_⟩
      rw [Bool.and_eq_true, Bool.and_eq_true, decide_eq_true_iff, beq_iff_eq]
      exact ⟨⟨h1, h2⟩, List.elem_iff.mpr h3⟩

theorem C7_tag_clauses_witness :
    tagsClause { scenarioEvent "id-0" 1 with Tags := [["e", "x"]] }
        { emptyFilter with Tags := [("e", ["x", "y"])] } = true ↔
      ∀ p ∈ [(("e" : String), (["x", "y"] : List String))], p.2 ≠ [] →
        ∃ tag ∈ [(["e", "x"] : List String)],
          1 < tag.length ∧ tag.headD "" = p.1 ∧ tag.getD 1 "" ∈ p.2 :=
  C7_tag_clauses { scenarioEvent "id-0" 1 with Tags := [["e", "x"]] }
    { emptyFilter with Tags := [("e", ["x", "y"])] }

/-- C3 counterexample: with capacity 0, `NewAtomicCircularBuffer2` returns a
store (construction does not fail) and a query on that store succeeds,
returning an empty result — so the store can be used, against the claim. -/
theorem C3_counterexample :
    newAtomicCircularBuffer2 0 = some (freshBuf 0) ∧
      queryEvents false (freshBuf 0) emptyFilter = Except.ok [] ∧
      queryEvents true (freshBuf 0) emptyFilter = Except.ok [] :=
  ⟨rfl, rfl, rfl⟩

/-- C3 amended: for non-positive capacity, `Init` reports the configuration
error and `Put` faults, but construction itself only fails for negative
capacity, and a query on a capacity-0 store still succeeds with an empty
result. -/
theorem C3_nonpositive_capacity (c : Int) (hc : c ≤ 0) :
    (c < 0 → newAtomicCircularBuffer2 c = none) ∧
    ∀ cb, newAtomicCircularBuffer2 c = some cb →
      initBuffer cb = Except.error "max limit must be greater than 0" ∧
      (∀ e, saveEvent cb (some e) = SaveOutcome.fault) ∧
      (∀ (canceled : Bool) (f : NFilter), queryEvents canceled cb f = Except.ok []) := by
  constructor
  · intro h
    unfold newAtomicCircularBuffer2
    rw [if_pos h]
  · intro cb hcb
    unfold newAtomicCircularBuffer2 at hcb
    by_cases h : c < 0
    · rw [if_pos h] at hcb
      exact absurd hcb (by simp)
    · rw [if_neg h] at hcb
      have hc0 : c = 0 := by omega
      subst hc0
      have hcb' : cb = freshBuf 0 := (Option.some.inj hcb).symm
      subst hcb'
      exact ⟨rfl, fun e => rfl, fun canceled f => rfl⟩

theorem C3_nonpositive_capacity_witness :
    initBuffer (freshBuf 0) = Except.error "max limit must be greater than 0" ∧
      saveEvent (freshBuf 0) (some (scenarioEvent "a" 1)) = SaveOutcome.fault ∧
      queryEvents true (freshBuf 0) emptyFilter = Except.ok [] := by
  have h := (C3_nonpositive_capacity 0 (by decide)).2 (freshBuf 0) rfl
  exact ⟨h.1, h.2.1 (scenarioEvent "a" 1), h.2.2 true emptyFilter⟩

/-- Thread-local state of one in-flight `SaveEvent` call in the interleaved
semantics: program counter, the head value loaded at line 63, and the count
value returned by `AddUint64` at line 72. -/
structure PutThread where
  pc : Nat
  h : Nat
  c : Nat
deriving Repr, DecidableEq, Inhabited

/-- One atomic step of the body of `SaveEvent` for a non-nil event, at the
granularity of the source's shared-memory accesses:
pc 0: `head := atomic.LoadUint64(&cb.head)`;
pc 1: `cb.buffer[head] = *evt`;
pc 2: `atomic.StoreUint64(&cb.head, (head+1)%cb.size)`;
pc 3: `count := atomic.AddUint64(&cb.count, 1)`;
pc 4: `if count > cb.size { atomic.CompareAndSwapUint64(&cb.count, count, cb.size) }`;
pc 5: returned. -/
def putStepAtomic (e : Event) (sh : AtomicCircularBuffer2) (t : PutThread) :
    AtomicCircularBuffer2 × PutThread :=
  match t.pc with
  | 0 => (sh, { t with pc := 1, h := sh.head })
  | 1 => ({ sh with buffer := sh.buffer.set t.h e }, { t with pc := 2 })
  | 2 => ({ sh with head := (t.h + 1) % sh.size }, { t with pc := 3 })
  | 3 => ({ sh with count := sh.count + 1 }, { t with pc := 4, c := sh.count + 1 })
  | 4 =>
    (if t.c > sh.size ∧ sh.count = t.c then { sh with count := sh.size } else sh,
      { t with pc := 5 })
  | _ => (sh, t)

/-- Shared store plus the local states of two concurrent `SaveEvent` calls. -/
structure TwoPutState where
  shared : AtomicCircularBuffer2
  t1 : PutThread
  t2 : PutThread
deriving Repr, DecidableEq, Inhabited

/-- Execute one atomic step of thread 1 (saving `e1`) or thread 2 (saving
`e2`). -/
def stepThread (e1 e2 : Event) (s : TwoPutState) (which : Bool) : TwoPutState :=
  if which then
    { s with
      shared := (putStepAtomic e1 s.shared s.t1).1
      t1 := (putStepAtomic e1 s.shared s.t1).2 }
  else
    { s with
      shared := (putStepAtomic e2 s.shared s.t2).1
      t2 := (putStepAtomic e2 s.shared s.t2).2 }

/-- Run the two concurrent `SaveEvent` calls under a given interleaving
(`true` = thread 1 takes the next atomic step). -/
def runSchedule (e1 e2 : Event) (sched : List Bool) (s : TwoPutState) : TwoPutState :=
  sched.foldl (stepThread e1 e2) s

/-- The interleaving in which the two threads alternate: both load the same
head value before either stores the incremented one. -/
def racySchedule : List Bool :=
  [true, false, true, false, true, false, true, false, true, false]

def racyEventA : Event := scenarioEvent "aaaa" 1

def racyEventB : Event := scenarioEvent "bbbb" 2

/-- C2: two concurrent `Put` calls do NOT always reserve distinct slots.
Under `racySchedule`, on an empty capacity-4 store, both threads load
head = 0, both write slot 0, and the second write destroys the first
thread's record: the final buffer holds only `racyEventB`, while the cursor
advanced once and the occupancy count reads 2. -/
theorem C2_concurrent_puts_collide :
    (runSchedule racyEventA racyEventB racySchedule
        { shared := freshBuf 4, t1 := default, t2 := default }).t1.h = 0 ∧
    (runSchedule racyEventA racyEventB racySchedule
        { shared := freshBuf 4, t1 := default, t2 := default }).t2.h = 0 ∧
    (runSchedule racyEventA racyEventB racySchedule
        { shared := freshBuf 4, t1 := default, t2 := default }).shared.buffer =
      [racyEventB, default, default, default] ∧
    (runSchedule racyEventA racyEventB racySchedule
        { shared := freshBuf 4, t1 := default, t2 := default }).shared.head = 1 ∧
    (runSchedule racyEventA racyEventB racySchedule
        { shared := freshBuf 4, t1 := default, t2 := default }).shared.count = 2 ∧
    racyEventA ∉
      (runSchedule racyEventA racyEventB racySchedule
        { shared := freshBuf 4, t1 := default, t2 := default }).shared.buffer := by
  decide
